import Mathlib

/-!
Shallow embedding of the invitation lifecycle of the Digby Dolphins
repository: the callable Cloud Functions `sendInvitations`,
`resendInvitation`, `deleteInvitation`, `getInvitations`,
`verifyInvitation` and `acceptInvitation`.

Modelling choices:
* The Firestore `invitations` collection is a list of `Invitation`
  records; list order stands in for Firestore's document order, so a
  `limit(1)` query is `List.find?` and a document update rewrites the
  first record with the queried id.
* The Firestore `users` collection is a list of `User` records keyed by
  `uid`.
* Timestamps are integer seconds (the code compares
  `invitation.expiresAt.seconds < now.seconds`); `Date.now()` and
  `FieldValue.serverTimestamp()` taken during one call both resolve to
  the call's `now` parameter.
* `crypto.randomBytes`-generated tokens and fresh Firestore document ids
  are supplied by oracles (`tokens`, `ids`) consumed left to right, and a
  fresh token for a resend is an explicit argument.
* `transporter.sendMail` is an oracle `sendMail : String → Except String Unit`
  giving the dispatch outcome per recipient; `.error m` is a thrown JS
  error with message `m`.
* Every `throw new Error(msg)` becomes a `JsError` with class `"Error"`
  and message `msg`; a `try/catch` that rethrows with a prefixed message
  becomes the corresponding prefixed `JsError`.
-/

namespace DigbyDolphins

/-- A document of the `users` collection: doc id (`uid`), `email`, and an
optional `role` field. -/
structure User where
  uid : String
  email : String
  role : Option String
deriving DecidableEq, Repr

/-- A document of the `invitations` collection, field for field as written
by `sendInvitations` / `resendInvitation` / `acceptInvitation`. Fields the
code never writes at creation (`role`, `acceptedAt`, `acceptedBy`,
`updatedAt`) are `Option`s defaulting to `none` (absent). -/
structure Invitation where
  id : String
  email : String
  token : String
  status : String
  createdAt : Int
  createdBy : String
  expiresAt : Int
  role : Option String := none
  acceptedAt : Option Int := none
  acceptedBy : Option String := none
  updatedAt : Option Int := none
deriving DecidableEq, Repr

/-- The `invitations` collection. -/
abbrev Store := List Invitation

/-- A JavaScript `Error` value: constructor (class) name and message.
Every `throw` in the source constructs plain `Error`. -/
structure JsError where
  cls : String
  msg : String
deriving DecidableEq, Repr

/-- `new Error(m)`. -/
def mkErr (m : String) : JsError := ⟨"Error", m⟩

/-- The decoded auth token of a callable request (`request.auth.token`):
custom claim `role` (absent when unset) and the caller's email. -/
structure AuthToken where
  role : Option String
  email : String
deriving DecidableEq, Repr

/-- `request.auth`: caller uid and decoded token. -/
structure AuthInfo where
  uid : String
  token : AuthToken
deriving DecidableEq, Repr

/-- The admin check shared by the four admin operations: pass immediately
when the custom claim `role` is (truthy and) `'admin'`, otherwise fall
back to reading `users/{uid}` and requiring its `role` field to be
`'admin'`. -/
def isAdminCheck (users : List User) (a : AuthInfo) : Bool :=
  if a.token.role = some "admin" then true
  else
    match users.find? (fun u => u.uid == a.uid) with
    | some u => u.role == some "admin"
    | none => false

/-- `db.collection('users').where('email','==',email).limit(1)` is
non-empty. -/
def userExistsByEmail (users : List User) (email : String) : Bool :=
  users.any (fun u => u.email == email)

/-- `db.collection('invitations').where('email','==',email)
.where('status','==','pending').limit(1)` is non-empty. -/
def hasPendingInvitation (store : Store) (email : String) : Bool :=
  store.any (fun inv => inv.email == email && inv.status == "pending")

/-- `7 * 24 * 60 * 60 * 1000` ms expressed in seconds. -/
def sevenDaysSeconds : Int := 7 * 24 * 60 * 60

/-- JavaScript `a || b` on an optional string: the fallback fires when
`a` is absent or empty (falsy). -/
def jsOrElse (a : Option String) (b : String) : String :=
  match a with
  | some s => if s = "" then b else s
  | none => b

/-- The ambient collaborators of one call: the `users` collection, the
token generator's outputs, the fresh document ids, and the mail
transporter's outcome per recipient. -/
structure Env where
  users : List User
  tokens : Nat → String
  ids : Nat → String
  sendMail : String → Except String Unit

/-- The aggregate result object of `sendInvitations`:
`{success: [...], failed: [...{email, reason}]}`. -/
structure BatchResults where
  success : List String
  failed : List (String × String)
deriving DecidableEq, Repr

/-- The reason string recorded for a per-email dispatch failure:
`err.message || 'Unknown error'`. -/
def failReason (m : String) : String := if m = "" then "Unknown error" else m

/-- The record `sendInvitations` writes for one fresh invitation: exactly
the seven fields `id, email, token, status, createdAt, createdBy,
expiresAt` (no `role`). -/
def mkInvitation (id email token createdBy : String) (now : Int) : Invitation :=
  { id := id, email := email, token := token, status := "pending",
    createdAt := now, createdBy := createdBy, expiresAt := now + sevenDaysSeconds }

/-- One iteration of the `for (const email of emails)` loop of
`sendInvitations`, threading the store, the accumulated results, and the
number of generator calls made so far. -/
def processEmail (env : Env) (invitedBy : Option String) (callerEmail : String) (now : Int)
    (st : Store × BatchResults × Nat) (email : String) : Store × BatchResults × Nat :=
  let store := st.1
  let res := st.2.1
  let k := st.2.2
  if userExistsByEmail env.users email then
    (store, { res with failed := res.failed ++ [(email, "User already exists")] }, k)
  else if hasPendingInvitation store email then
    (store, { res with failed := res.failed ++ [(email, "Invitation already sent")] }, k)
  else
    let inv := mkInvitation (env.ids k) email (env.tokens k) (jsOrElse invitedBy callerEmail) now
    match env.sendMail email with
    | .ok _ =>
      (store ++ [inv], { res with success := res.success ++ [email] }, k + 1)
    | .error m =>
      (store ++ [inv],
        { res with failed := res.failed ++ [(email, failReason m)] },
        k + 1)

/-- `sendInvitations`: auth check, admin check (its throw is wrapped by
the outer catch), input validation, then the per-email loop whose bodies
never abort the batch. -/
def sendInvitations (env : Env) (store : Store) (auth : Option AuthInfo)
    (emails : List String) (invitedBy : Option String) (now : Int) :
    Except JsError BatchResults × Store :=
  match auth with
  | none => (.error (mkErr "Unauthorized: You must be logged in to send invitations"), store)
  | some a =>
    if isAdminCheck env.users a then
      if emails.isEmpty then
        (.error (mkErr "Failed to send invitations: Invalid input: emails must be a non-empty array"), store)
      else
        let final := emails.foldl (processEmail env invitedBy a.token.email now) (store, ⟨[], []⟩, 0)
        (.ok final.2.1, final.1)
    else
      (.error (mkErr "Failed to send invitations: Unauthorized: Only admins can send invitations"), store)

/-- Rewrite the first record satisfying `p` (a Firestore
`docRef.update` on the queried document). -/
def updateFirst (p : Invitation → Bool) (f : Invitation → Invitation) : Store → Store
  | [] => []
  | inv :: rest => if p inv then f inv :: rest else inv :: updateFirst p f rest

/-- The field update a resend writes: fresh token, new expiry,
`updatedAt`. -/
def resendUpdate (freshToken : String) (now : Int) (i : Invitation) : Invitation :=
  { i with token := freshToken, expiresAt := now + sevenDaysSeconds, updatedAt := some now }

/-- The field update an accept writes: `status`, `acceptedAt`,
`acceptedBy`. -/
def acceptUpdate (now : Int) (userId : String) (i : Invitation) : Invitation :=
  { i with status := "accepted", acceptedAt := some now, acceptedBy := some userId }

/-- Remove the first record satisfying `p` (a Firestore
`docRef.delete`, a no-op when the document is absent). -/
def removeFirst (p : Invitation → Bool) : Store → Store
  | [] => []
  | inv :: rest => if p inv then rest else inv :: removeFirst p rest

/-- `resendInvitation`: auth and admin checks, lookup by id, pending
check, then the update writing a fresh token, a new `expiresAt`, and
`updatedAt`, followed by the mail dispatch. A dispatch failure is caught
and rethrown with the `Failed to resend invitation: ` prefix but the
update has already been persisted. -/
def resendInvitation (env : Env) (store : Store) (auth : Option AuthInfo)
    (invitationId : String) (freshToken : String) (now : Int) :
    Except JsError Unit × Store :=
  match auth with
  | none => (.error (mkErr "Unauthorized: You must be logged in to resend invitations"), store)
  | some a =>
    if isAdminCheck env.users a then
      match store.find? (fun inv => inv.id == invitationId) with
      | none => (.error (mkErr "Failed to resend invitation: Invitation not found"), store)
      | some inv =>
        if inv.status ≠ "pending" then
          (.error (mkErr "Failed to resend invitation: Cannot resend an invitation that has already been accepted"), store)
        else
          let store' := updateFirst (fun i => i.id == invitationId)
            (resendUpdate freshToken now) store
          match env.sendMail inv.email with
          | .ok _ => (.ok (), store')
          | .error m => (.error (mkErr ("Failed to resend invitation: " ++ m)), store')
    else
      (.error (mkErr "Failed to resend invitation: Unauthorized: Only admins can resend invitations"), store)

/-- `deleteInvitation`: auth and admin checks, then an unconditional
delete of the document. -/
def deleteInvitation (env : Env) (store : Store) (auth : Option AuthInfo)
    (invitationId : String) : Except JsError Unit × Store :=
  match auth with
  | none => (.error (mkErr "Unauthorized: You must be logged in to delete invitations"), store)
  | some a =>
    if isAdminCheck env.users a then
      (.ok (), removeFirst (fun inv => inv.id == invitationId) store)
    else
      (.error (mkErr "Failed to delete invitation: Unauthorized: Only admins can delete invitations"), store)

/-- Insertion step for ordering by `createdAt` descending. -/
def insertByCreatedAtDesc (inv : Invitation) : Store → Store
  | [] => [inv]
  | x :: xs => if x.createdAt ≤ inv.createdAt then inv :: x :: xs else x :: insertByCreatedAtDesc inv xs

/-- `orderBy('createdAt', 'desc')` over the whole collection. -/
def sortByCreatedAtDesc (store : Store) : Store :=
  store.foldr insertByCreatedAtDesc []

/-- `getInvitations`: auth and admin checks, then all invitations newest
first. -/
def getInvitations (env : Env) (store : Store) (auth : Option AuthInfo) :
    Except JsError Store × Store :=
  match auth with
  | none => (.error (mkErr "Unauthorized: You must be logged in to view invitations"), store)
  | some a =>
    if isAdminCheck env.users a then
      (.ok (sortByCreatedAtDesc store), store)
    else
      (.error (mkErr "Failed to get invitations: Unauthorized: Only admins can view invitations"), store)

/-- Outcome of `verifyInvitation`: the pre-`try` validation throw escapes
to the caller; everything thrown inside the `try` is caught and returned
as `{valid:false, error}`; success is `{valid:true, invitation:{id,
email, role}}`. -/
inductive VerifyResult where
  | thrown (e : JsError)
  | invalid (error : String)
  | valid (id email role : String)
deriving DecidableEq, Repr

/-- The three equality filters of the verification query. -/
def matchesVerify (email token : String) (inv : Invitation) : Bool :=
  inv.email == email && inv.token == token && inv.status == "pending"

/-- `verifyInvitation`: require token and email (JS truthiness), query
the first record matching email, token and pending status, then the lazy
expiry check `expiresAt.seconds < now.seconds`; on success the returned
role defaults to `supporter` when the record has no `role` field. The
function performs no write, so the store is returned unchanged on every
path. -/
def verifyInvitation (store : Store) (token email : String) (now : Int) :
    VerifyResult × Store :=
  if token = "" ∨ email = "" then
    (.thrown (mkErr "Invalid request: token and email are required"), store)
  else
    match store.find? (matchesVerify email token) with
    | none => (.invalid "Invalid or expired invitation", store)
    | some inv =>
      if inv.expiresAt < now then
        (.invalid "Invitation has expired", store)
      else
        (.valid inv.id inv.email (inv.role.getD "supporter"), store)

/-- Whether a `VerifyResult` is the `{valid:true, ...}` outcome. -/
def isValid : VerifyResult → Bool
  | .valid _ _ _ => true
  | _ => false

/-- `acceptInvitation`: input validation (outside the `try`), lookup by
id, pending check, expiry check, then the single mutating transition out
of `pending`. -/
def acceptInvitation (store : Store) (invitationId userId : String) (now : Int) :
    Except JsError Unit × Store :=
  if invitationId = "" ∨ userId = "" then
    (.error (mkErr "Invalid request: invitationId and userId are required"), store)
  else
    match store.find? (fun inv => inv.id == invitationId) with
    | none => (.error (mkErr "Failed to accept invitation: Invitation not found"), store)
    | some inv =>
      if inv.status ≠ "pending" then
        (.error (mkErr "Failed to accept invitation: Invitation has already been used"), store)
      else if inv.expiresAt < now then
        (.error (mkErr "Failed to accept invitation: Invitation has expired"), store)
      else
        (.ok (), updateFirst (fun i => i.id == invitationId)
          (acceptUpdate now userId) store)

/-! Concrete fixtures used by counterexamples and witnesses. -/

/-- A pending invitation for `a` with token `t`, already expired at time 10. -/
def cexExpired : Invitation :=
  { id := "i1", email := "a", token := "t", status := "pending",
    createdAt := 0, createdBy := "adm", expiresAt := 5 }

/-- A pending invitation for `a` with token `t`, unexpired at time 10. -/
def cexFresh : Invitation :=
  { id := "i2", email := "a", token := "t", status := "pending",
    createdAt := 0, createdBy := "adm", expiresAt := 100 }

/-- A pending unexpired invitation whose stored token is the empty string. -/
def cexEmptyTok : Invitation :=
  { id := "i3", email := "a", token := "", status := "pending",
    createdAt := 0, createdBy := "adm", expiresAt := 100 }

/-- A pending unexpired invitation used by witnesses. -/
def wInv : Invitation :=
  { id := "w1", email := "a", token := "t", status := "pending",
    createdAt := 0, createdBy := "adm", expiresAt := 100 }

/-- A pending invitation whose expiry is exactly seven days after its
creation, used by the expiry witness. -/
def wInv7 : Invitation :=
  { id := "w7", email := "a", token := "t", status := "pending",
    createdAt := 0, createdBy := "adm", expiresAt := sevenDaysSeconds }

/-- A witness environment: no user accounts, fixed generator outputs,
mail always delivered. -/
def wEnv : Env :=
  { users := [], tokens := fun _ => "ntk", ids := fun _ => "nid",
    sendMail := fun _ => .ok () }

/-- A witness environment whose mail transporter always fails. -/
def wEnvFail : Env :=
  { users := [], tokens := fun _ => "ntk", ids := fun _ => "nid",
    sendMail := fun _ => .error "boom" }

/-- A caller whose custom claim grants admin. -/
def wAdmin : AuthInfo := { uid := "u1", token := { role := some "admin", email := "adm@x" } }

/-- An authenticated caller with no role claim and no user document. -/
def wNonAdmin : AuthInfo := { uid := "u2", token := { role := none, email := "n@x" } }

end DigbyDolphins

namespace DigbyDolphins

/-! Helper lemmas. -/

lemma matchesVerify_eq_true_iff (email token : String) (inv : Invitation) :
    matchesVerify email token inv = true ↔
      (inv.email = email ∧ inv.token = token ∧ inv.status = "pending") := by
  simp [matchesVerify, and_assoc]

lemma find?_unique_spec (p : Invitation → Bool) (q : Invitation → Prop) (store : Store) :
    store.countP p ≤ 1 →
      ((∃ inv ∈ store, p inv = true ∧ q inv) ↔ ∃ inv, store.find? p = some inv ∧ q inv) := by
  induction store with
  | nil => simp
  | cons a t ih =>
    intro h
    rw [List.countP_cons] at h
    by_cases hpa : p a = true
    · have ht : t.countP p = 0 := by rw [if_pos hpa] at h; omega
      have hnone : ∀ x ∈ t, ¬ p x = true := List.countP_eq_zero.mp ht
      have hfind : (a :: t).find? p = some a := List.find?_cons_of_pos t hpa
      constructor
      · rintro ⟨inv, hmem, hp, hq⟩
        rcases List.mem_cons.mp hmem with rfl | hmemt
        · exact ⟨inv, hfind, hq⟩
        · exact absurd hp (hnone _ hmemt)
      · rintro ⟨inv, hfind', hq⟩
        rw [hfind] at hfind'
        obtain rfl : a = inv := Option.some.inj hfind'
        exact ⟨a, List.mem_cons_self a t, hpa, hq⟩
    · have hfind : (a :: t).find? p = t.find? p := List.find?_cons_of_neg t hpa
      have hcount : t.countP p ≤ 1 := by rw [if_neg hpa] at h; omega
      rw [hfind]
      constructor
      · rintro ⟨inv, hmem, hp, hq⟩
        rcases List.mem_cons.mp hmem with rfl | hmemt
        · exact absurd hp hpa
        · exact (ih hcount).mp ⟨inv, hmemt, hp, hq⟩
      · rintro ⟨inv, hfind', hq⟩
        obtain ⟨inv', hmem, hp, hq'⟩ := (ih hcount).mpr ⟨inv, hfind', hq⟩
        exact ⟨inv', List.mem_cons_of_mem a hmem, hp, hq'⟩

lemma find?_updateFirst (p : Invitation → Bool) (f : Invitation → Invitation)
    (store : Store) :
    ∀ (inv : Invitation), store.find? p = some inv → p (f inv) = true →
      (updateFirst p f store).find? p = some (f inv) := by
  induction store with
  | nil => intro inv h; simp at h
  | cons a t ih =>
    intro inv hfind hpf
    by_cases hpa : p a = true
    · rw [List.find?_cons_of_pos t hpa] at hfind
      obtain rfl : a = inv := Option.some.inj hfind
      simp only [updateFirst, if_pos hpa]
      exact List.find?_cons_of_pos t hpf
    · rw [List.find?_cons_of_neg t hpa] at hfind
      simp only [updateFirst, if_neg hpa]
      rw [List.find?_cons_of_neg _ hpa]
      exact ih inv hfind hpf

lemma find?_decomp (p : Invitation → Bool) (f : Invitation → Invitation)
    (store : Store) :
    ∀ (inv : Invitation), store.find? p = some inv →
      ∃ l1 l2, store = l1 ++ inv :: l2 ∧ (∀ x ∈ l1, p x = false) ∧
        updateFirst p f store = l1 ++ f inv :: l2 := by
  induction store with
  | nil => intro inv h; simp at h
  | cons a t ih =>
    intro inv hfind
    by_cases hpa : p a = true
    · rw [List.find?_cons_of_pos t hpa] at hfind
      obtain rfl : a = inv := Option.some.inj hfind
      exact ⟨[], t, rfl, by simp, by simp [updateFirst, hpa]⟩
    · have hpa' : p a = false := by simpa using hpa
      rw [List.find?_cons_of_neg t hpa] at hfind
      obtain ⟨l1, l2, heq, hl1, hupd⟩ := ih inv hfind
      refine ⟨a :: l1, l2, by simp [heq], ?_, ?_⟩
      · intro x hx
        rcases List.mem_cons.mp hx with rfl | hx
        · exact hpa'
        · exact hl1 x hx
      · simp only [updateFirst, if_neg hpa, hupd, List.cons_append]

lemma countP_ge_two (q : Invitation → Bool) (l1 l2 : Store) (inv x : Invitation)
    (hinv : q inv = true) (hx : x ∈ l1 ∨ x ∈ l2) (hqx : q x = true) :
    ¬ (l1 ++ inv :: l2).countP q ≤ 1 := by
  have hpos : 0 < l1.countP q ∨ 0 < l2.countP q := by
    rcases hx with hx | hx
    · exact .inl (List.countP_pos_iff.mpr ⟨x, hx, hqx⟩)
    · exact .inr (List.countP_pos_iff.mpr ⟨x, hx, hqx⟩)
  rw [List.countP_append, List.countP_cons, hinv]
  simp only [if_true]
  omega

/-! Lemmas about one iteration of the `sendInvitations` loop. -/

lemma processEmail_store (env : Env) (invitedBy : Option String) (ce : String) (now : Int)
    (st : Store × BatchResults × Nat) (e : String) :
    (processEmail env invitedBy ce now st e).1 = st.1 ∨
    (processEmail env invitedBy ce now st e).1 =
      st.1 ++ [mkInvitation (env.ids st.2.2) e (env.tokens st.2.2) (jsOrElse invitedBy ce) now] := by
  unfold processEmail
  by_cases hu : userExistsByEmail env.users e = true
  · left; simp [hu]
  · by_cases hp : hasPendingInvitation st.1 e = true
    · left; simp [hu, hp]
    · cases hm : env.sendMail e with
      | ok u => right; simp [hu, hp, hm]
      | error m => right; simp [hu, hp, hm]

lemma processEmail_count (env : Env) (invitedBy : Option String) (ce : String) (now : Int)
    (st : Store × BatchResults × Nat) (e target : String) :
    (processEmail env invitedBy ce now st e).2.1.success.count target +
      ((processEmail env invitedBy ce now st e).2.1.failed.map Prod.fst).count target =
    st.2.1.success.count target + (st.2.1.failed.map Prod.fst).count target +
      (if e = target then 1 else 0) := by
  unfold processEmail
  by_cases hu : userExistsByEmail env.users e = true
  · simp [hu, List.count_append, List.count_cons]; omega
  · by_cases hp : hasPendingInvitation st.1 e = true
    · simp [hu, hp, List.count_append, List.count_cons]; omega
    · cases hm : env.sendMail e with
      | ok u => simp [hu, hp, hm, List.count_append, List.count_cons]; omega
      | error m => simp [hu, hp, hm, List.count_append, List.count_cons]; omega

lemma processEmail_absent_counts (env : Env) (invitedBy : Option String) (ce : String)
    (now : Int) (st : Store × BatchResults × Nat) (e target : String) (hne : e ≠ target) :
    (processEmail env invitedBy ce now st e).2.1.success.count target =
      st.2.1.success.count target ∧
    ∀ r, (processEmail env invitedBy ce now st e).2.1.failed.count (target, r) =
      st.2.1.failed.count (target, r) := by
  unfold processEmail
  by_cases hu : userExistsByEmail env.users e = true
  · simp [hu, List.count_append, List.count_cons, hne, Ne.symm hne]
  · by_cases hp : hasPendingInvitation st.1 e = true
    · simp [hu, hp, List.count_append, List.count_cons, hne, Ne.symm hne]
    · cases hm : env.sendMail e with
      | ok u => simp [hu, hp, hm, List.count_append, List.count_cons, hne, Ne.symm hne]
      | error m => simp [hu, hp, hm, List.count_append, List.count_cons, hne, Ne.symm hne]

lemma processEmail_user_step (env : Env) (invitedBy : Option String) (ce : String)
    (now : Int) (st : Store × BatchResults × Nat) (target : String)
    (hu : userExistsByEmail env.users target = true) :
    (processEmail env invitedBy ce now st target).2.1.success.count target =
      st.2.1.success.count target ∧
    (processEmail env invitedBy ce now st target).2.1.failed.count (target, "User already exists") =
      st.2.1.failed.count (target, "User already exists") + 1 := by
  unfold processEmail
  simp [hu, List.count_append, List.count_cons]

lemma processEmail_pending_step (env : Env) (invitedBy : Option String) (ce : String)
    (now : Int) (st : Store × BatchResults × Nat) (target : String)
    (hu : userExistsByEmail env.users target = false)
    (hp : hasPendingInvitation st.1 target = true) :
    (processEmail env invitedBy ce now st target).2.1.success.count target =
      st.2.1.success.count target ∧
    (processEmail env invitedBy ce now st target).2.1.failed.count
        (target, "Invitation already sent") =
      st.2.1.failed.count (target, "Invitation already sent") + 1 := by
  unfold processEmail
  simp [hu, hp, List.count_append, List.count_cons]

lemma processEmail_pending_mono (env : Env) (invitedBy : Option String) (ce : String)
    (now : Int) (st : Store × BatchResults × Nat) (e target : String)
    (hp : hasPendingInvitation st.1 target = true) :
    hasPendingInvitation (processEmail env invitedBy ce now st e).1 target = true := by
  rcases processEmail_store env invitedBy ce now st e with hst | hst <;> rw [hst]
  · exact hp
  · unfold hasPendingInvitation at hp ⊢
    rw [List.any_append, hp]
    rfl

lemma processEmail_pending_other (env : Env) (invitedBy : Option String) (ce : String)
    (now : Int) (st : Store × BatchResults × Nat) (e target : String) (hne : e ≠ target) :
    hasPendingInvitation (processEmail env invitedBy ce now st e).1 target =
      hasPendingInvitation st.1 target := by
  rcases processEmail_store env invitedBy ce now st e with hst | hst
  · rw [hst]
  · rw [hst]
    unfold hasPendingInvitation
    rw [List.any_append]
    simp [mkInvitation, hne]

/-! Lemmas about the whole `sendInvitations` loop. -/

lemma sendFold_store (env : Env) (invitedBy : Option String) (ce : String) (now : Int) :
    ∀ (emails : List String) (init : Store × BatchResults × Nat),
      ∃ news, (emails.foldl (processEmail env invitedBy ce now) init).1 = init.1 ++ news ∧
        ∀ inv ∈ news, ∃ k em, inv = mkInvitation (env.ids k) em (env.tokens k)
          (jsOrElse invitedBy ce) now ∧ em ∈ emails := by
  intro emails
  induction emails with
  | nil => intro init; exact ⟨[], by simp, by simp⟩
  | cons e rest ih =>
    intro init
    rw [List.foldl_cons]
    obtain ⟨news, hstore, hshape⟩ := ih (processEmail env invitedBy ce now init e)
    rcases processEmail_store env invitedBy ce now init e with hst | hst
    · refine ⟨news, by rw [hstore, hst], ?_⟩
      intro inv h
      obtain ⟨k, em, hinv, hmem⟩ := hshape inv h
      exact ⟨k, em, hinv, List.mem_cons_of_mem e hmem⟩
    · refine ⟨mkInvitation (env.ids init.2.2) e (env.tokens init.2.2)
        (jsOrElse invitedBy ce) now :: news, ?_, ?_⟩
      · rw [hstore, hst]
        simp
      · intro inv h
        rcases List.mem_cons.mp h with rfl | h
        · exact ⟨init.2.2, e, rfl, List.mem_cons_self e rest⟩
        · obtain ⟨k, em, hinv, hmem⟩ := hshape inv h
          exact ⟨k, em, hinv, List.mem_cons_of_mem e hmem⟩

lemma sendFold_count (env : Env) (invitedBy : Option String) (ce : String) (now : Int) :
    ∀ (emails : List String) (init : Store × BatchResults × Nat) (target : String),
      (emails.foldl (processEmail env invitedBy ce now) init).2.1.success.count target +
        ((emails.foldl (processEmail env invitedBy ce now) init).2.1.failed.map
          Prod.fst).count target =
      init.2.1.success.count target + (init.2.1.failed.map Prod.fst).count target +
        emails.count target := by
  intro emails
  induction emails with
  | nil => intro init target; simp
  | cons e rest ih =>
    intro init target
    rw [List.foldl_cons]
    have hstep := processEmail_count env invitedBy ce now init e target
    have hrec := ih (processEmail env invitedBy ce now init e) target
    rw [hrec, hstep, List.count_cons]
    by_cases h : e = target
    · simp [h]
      omega
    · simp [h, beq_eq_false_iff_ne.mpr h]

lemma sendFold_absent_email (env : Env) (invitedBy : Option String) (ce : String)
    (now : Int) :
    ∀ (emails : List String) (init : Store × BatchResults × Nat) (target : String),
      emails.count target = 0 →
      (emails.foldl (processEmail env invitedBy ce now) init).2.1.success.count target =
        init.2.1.success.count target ∧
      ∀ r, (emails.foldl (processEmail env invitedBy ce now) init).2.1.failed.count
        (target, r) = init.2.1.failed.count (target, r) := by
  intro emails
  induction emails with
  | nil => intro init target _; simp
  | cons e rest ih =>
    intro init target hc
    rw [List.count_cons] at hc
    have hne : e ≠ target := by
      intro h
      simp [h] at hc
    have hc' : rest.count target = 0 := by
      simp [fun hh : (e == target) = true => hne (by simpa using hh)] at hc
      omega
    rw [List.foldl_cons]
    have hstep := processEmail_absent_counts env invitedBy ce now init e target hne
    obtain ⟨hs, hf⟩ := ih (processEmail env invitedBy ce now init e) target hc'
    exact ⟨by rw [hs, hstep.1], fun r => by rw [hf r, hstep.2 r]⟩

lemma sendFold_user (env : Env) (invitedBy : Option String) (ce : String) (now : Int)
    (target : String) (hu : userExistsByEmail env.users target = true) :
    ∀ (emails : List String) (init : Store × BatchResults × Nat),
      (emails.foldl (processEmail env invitedBy ce now) init).2.1.success.count target =
        init.2.1.success.count target ∧
      (emails.foldl (processEmail env invitedBy ce now) init).2.1.failed.count
          (target, "User already exists") =
        init.2.1.failed.count (target, "User already exists") + emails.count target := by
  intro emails
  induction emails with
  | nil => intro init; simp
  | cons e rest ih =>
    intro init
    rw [List.foldl_cons, List.count_cons]
    obtain ⟨hs, hf⟩ := ih (processEmail env invitedBy ce now init e)
    by_cases h : e = target
    · subst h
      have hstep := processEmail_user_step env invitedBy ce now init e hu
      refine ⟨by rw [hs, hstep.1], ?_⟩
      rw [hf, hstep.2]
      simp
      omega
    · have hstep := processEmail_absent_counts env invitedBy ce now init e target h
      refine ⟨by rw [hs, hstep.1], ?_⟩
      rw [hf, hstep.2]
      simp [beq_eq_false_iff_ne.mpr h]

lemma sendFold_pending (env : Env) (invitedBy : Option String) (ce : String) (now : Int)
    (target : String) (hu : userExistsByEmail env.users target = false) :
    ∀ (emails : List String) (init : Store × BatchResults × Nat),
      hasPendingInvitation init.1 target = true →
      (emails.foldl (processEmail env invitedBy ce now) init).2.1.success.count target =
        init.2.1.success.count target ∧
      (emails.foldl (processEmail env invitedBy ce now) init).2.1.failed.count
          (target, "Invitation already sent") =
        init.2.1.failed.count (target, "Invitation already sent") + emails.count target := by
  intro emails
  induction emails with
  | nil => intro init _; simp
  | cons e rest ih =>
    intro init hp
    rw [List.foldl_cons, List.count_cons]
    have hp' : hasPendingInvitation (processEmail env invitedBy ce now init e).1 target = true :=
      processEmail_pending_mono env invitedBy ce now init e target hp
    obtain ⟨hs, hf⟩ := ih (processEmail env invitedBy ce now init e) hp'
    by_cases h : e = target
    · subst h
      have hstep := processEmail_pending_step env invitedBy ce now init e hu hp
      refine ⟨by rw [hs, hstep.1], ?_⟩
      rw [hf, hstep.2]
      simp
      omega
    · have hstep := processEmail_absent_counts env invitedBy ce now init e target h
      refine ⟨by rw [hs, hstep.1], ?_⟩
      rw [hf, hstep.2]
      simp [beq_eq_false_iff_ne.mpr h]

lemma sendFold_fresh (env : Env) (invitedBy : Option String) (ce : String) (now : Int)
    (target : String) (hu : userExistsByEmail env.users target = false) :
    ∀ (emails : List String) (init : Store × BatchResults × Nat),
      hasPendingInvitation init.1 target = false → emails.count target = 1 →
      (∃ inv ∈ (emails.foldl (processEmail env invitedBy ce now) init).1,
        inv.email = target ∧ inv.status = "pending") ∧
      (env.sendMail target = .ok () →
        (emails.foldl (processEmail env invitedBy ce now) init).2.1.success.count target =
          init.2.1.success.count target + 1) ∧
      (∀ m, env.sendMail target = .error m →
        (emails.foldl (processEmail env invitedBy ce now) init).2.1.failed.count
            (target, failReason m) =
          init.2.1.failed.count (target, failReason m) + 1) := by
  intro emails
  induction emails with
  | nil => intro init _ hc; simp at hc
  | cons e rest ih =>
    intro init hp hc
    rw [List.count_cons] at hc
    rw [List.foldl_cons]
    by_cases h : e = target
    · subst h
      have hc' : rest.count e = 0 := by
        simpa using hc
      -- the step takes the fresh-record branch
      have hstep : processEmail env invitedBy ce now init e =
          (init.1 ++ [mkInvitation (env.ids init.2.2) e (env.tokens init.2.2)
            (jsOrElse invitedBy ce) now],
           (match env.sendMail e with
            | .ok _ => { init.2.1 with success := init.2.1.success ++ [e] }
            | .error m => { init.2.1 with
                failed := init.2.1.failed ++ [(e, failReason m)] }),
           init.2.2 + 1) := by
        unfold processEmail
        cases hm : env.sendMail e with
        | ok u => simp [hu, hp, hm]
        | error m => simp [hu, hp, hm]
      rw [hstep]
      have habs := sendFold_absent_email env invitedBy ce now rest
        ((init.1 ++ [mkInvitation (env.ids init.2.2) e (env.tokens init.2.2)
            (jsOrElse invitedBy ce) now],
          (match env.sendMail e with
           | .ok _ => { init.2.1 with success := init.2.1.success ++ [e] }
           | .error m => { init.2.1 with
               failed := init.2.1.failed ++ [(e, failReason m)] }),
          init.2.2 + 1)) e hc'
      obtain ⟨news, hst, _⟩ := sendFold_store env invitedBy ce now rest
        ((init.1 ++ [mkInvitation (env.ids init.2.2) e (env.tokens init.2.2)
            (jsOrElse invitedBy ce) now],
          (match env.sendMail e with
           | .ok _ => { init.2.1 with success := init.2.1.success ++ [e] }
           | .error m => { init.2.1 with
               failed := init.2.1.failed ++ [(e, failReason m)] }),
          init.2.2 + 1))
      refine ⟨?_, ?_, ?_⟩
      · refine ⟨mkInvitation (env.ids init.2.2) e (env.tokens init.2.2)
          (jsOrElse invitedBy ce) now, ?_, rfl, rfl⟩
        rw [hst]
        exact List.mem_append_left _ (List.mem_append_right _ (List.mem_singleton.mpr rfl))
      · intro hok
        rw [habs.1]
        simp only [hok]
        simp [List.count_append, List.count_cons]
      · intro m hm
        rw [habs.2 (failReason m)]
        simp only [hm]
        simp [List.count_append, List.count_cons]
    · have hc' : rest.count target = 1 := by
        simpa [beq_eq_false_iff_ne.mpr h] using hc
      have hp' : hasPendingInvitation (processEmail env invitedBy ce now init e).1 target = false := by
        rw [processEmail_pending_other env invitedBy ce now init e target h]
        exact hp
      have hstep := processEmail_absent_counts env invitedBy ce now init e target h
      obtain ⟨hm, hok, herr⟩ := ih (processEmail env invitedBy ce now init e) hp' hc'
      refine ⟨hm, ?_, ?_⟩
      · intro hoke
        rw [hok hoke, hstep.1]
      · intro m hme
        rw [herr m hme, hstep.2 (failReason m)]

lemma sendInvitations_run (env : Env) (store : Store) (a : AuthInfo)
    (emails : List String) (invitedBy : Option String) (now : Int)
    (hadmin : isAdminCheck env.users a = true) (hne : emails ≠ []) :
    sendInvitations env store (some a) emails invitedBy now =
      (.ok (emails.foldl (processEmail env invitedBy a.token.email now)
        (store, ⟨[], []⟩, 0)).2.1,
       (emails.foldl (processEmail env invitedBy a.token.email now)
        (store, ⟨[], []⟩, 0)).1) := by
  unfold sendInvitations
  simp [hadmin, List.isEmpty_eq_false.mpr hne]

/-! Claim theorems. -/

/-- Claim C1, as stated (quantified over every store state), is false on
the code: with two pending records sharing the same email and token where
the expired one precedes the unexpired one, the `limit(1)` query returns
the expired record and verification fails even though the store contains
a matching, pending, unexpired invitation; and with an empty input token
matching a stored record, the pre-query validation throws instead of
returning `valid:true`. -/
theorem verifyInvitation_valid_iff_counterexample :
    (¬ (isValid (verifyInvitation [cexExpired, cexFresh] "t" "a" 10).1 = true ↔
        ∃ inv ∈ [cexExpired, cexFresh], inv.email = "a" ∧ inv.token = "t" ∧
          inv.status = "pending" ∧ ¬(inv.expiresAt < (10 : Int)))) ∧
    (¬ (isValid (verifyInvitation [cexEmptyTok] "" "a" 10).1 = true ↔
        ∃ inv ∈ [cexEmptyTok], inv.email = "a" ∧ inv.token = "" ∧
          inv.status = "pending" ∧ ¬(inv.expiresAt < (10 : Int)))) := by
  constructor <;> decide

/-- Claim C1 (amended): for every store state in which at most one record
matches the `(email, token, status = pending)` query, and for non-empty
token and email inputs, `verifyInvitation` returns `valid:true` exactly
when the store contains an invitation whose email and token equal the
inputs, whose status is `pending`, and whose `expiresAt` has not passed
(`¬ expiresAt < now` at seconds granularity); in every other case it
fails. -/
theorem verifyInvitation_valid_iff (store : Store) (token email : String) (now : Int)
    (htok : token ≠ "") (hem : email ≠ "")
    (huniq : store.countP (matchesVerify email token) ≤ 1) :
    isValid (verifyInvitation store token email now).1 = true ↔
      ∃ inv ∈ store, inv.email = email ∧ inv.token = token ∧
        inv.status = "pending" ∧ ¬(inv.expiresAt < now) := by
  have hguard : ¬(token = "" ∨ email = "") := by
    rintro (h | h)
    · exact htok h
    · exact hem h
  have key := find?_unique_spec (matchesVerify email token)
    (fun inv => ¬(inv.expiresAt < now)) store huniq
  constructor
  · intro hv
    unfold verifyInvitation at hv
    rw [if_neg hguard] at hv
    cases hfind : store.find? (matchesVerify email token) with
    | none => rw [hfind] at hv; simp [isValid] at hv
    | some inv =>
      rw [hfind] at hv
      by_cases hexp : inv.expiresAt < now
      · simp [hexp, isValid] at hv
      · have hm := (matchesVerify_eq_true_iff email token inv).mp (List.find?_some hfind)
        exact ⟨inv, List.mem_of_find?_eq_some hfind, hm.1, hm.2.1, hm.2.2, hexp⟩
  · rintro ⟨inv, hmem, he, ht, hs, hexp⟩
    have hex : ∃ i ∈ store, matchesVerify email token i = true ∧ ¬(i.expiresAt < now) :=
      ⟨inv, hmem, (matchesVerify_eq_true_iff email token inv).mpr ⟨he, ht, hs⟩, hexp⟩
    obtain ⟨i, hfind, hiexp⟩ := key.mp hex
    unfold verifyInvitation
    rw [if_neg hguard, hfind]
    simp [isValid, hiexp]

/-- Witness for the amended C1 at a concrete store and inputs. -/
theorem verifyInvitation_valid_iff_witness :
    isValid (verifyInvitation [wInv] "t" "a" 10).1 = true ↔
      ∃ inv ∈ [wInv], inv.email = "a" ∧ inv.token = "t" ∧
        inv.status = "pending" ∧ ¬(inv.expiresAt < (10 : Int)) :=
  verifyInvitation_valid_iff [wInv] "t" "a" 10 (by decide) (by decide) (by decide)

/-- Claim C7: `verifyInvitation` never mutates any stored invitation
record; the store after the call equals the store before it, and a second
call with the same inputs returns the same result. -/
theorem verifyInvitation_pure (store : Store) (token email : String) (now : Int) :
    (verifyInvitation store token email now).2 = store ∧
    verifyInvitation ((verifyInvitation store token email now).2) token email now =
      verifyInvitation store token email now := by
  have h2 : (verifyInvitation store token email now).2 = store := by
    unfold verifyInvitation
    split
    · rfl
    · split
      · rfl
      · split <;> rfl
  exact ⟨h2, by rw [h2]⟩

/-- Claim C3: `acceptInvitation` succeeds at most once per invitation id.
A first successful call sets `status = accepted`, `acceptedAt = now` and
`acceptedBy` to the supplied user id, and every subsequent well-formed
call (with a non-empty `userId`) on the same id fails with the
invalid-state error `Invitation has already been used`. -/
theorem acceptInvitation_at_most_once (store : Store) (iid uid : String) (now : Int)
    (hok : (acceptInvitation store iid uid now).1 = .ok ()) :
    (∃ inv', ((acceptInvitation store iid uid now).2).find? (fun i => i.id == iid) = some inv' ∧
      inv'.status = "accepted" ∧ inv'.acceptedAt = some now ∧ inv'.acceptedBy = some uid) ∧
    ∀ (uid' : String) (now' : Int), uid' ≠ "" →
      (acceptInvitation ((acceptInvitation store iid uid now).2) iid uid' now').1 =
        .error (mkErr "Failed to accept invitation: Invitation has already been used") := by
  by_cases hg : iid = "" ∨ uid = ""
  · exfalso
    unfold acceptInvitation at hok
    rw [if_pos hg] at hok
    simp at hok
  · unfold acceptInvitation at hok
    rw [if_neg hg] at hok
    cases hfind : store.find? (fun i => i.id == iid) with
    | none => rw [hfind] at hok; simp at hok
    | some inv =>
      rw [hfind] at hok
      by_cases hs : inv.status ≠ "pending"
      · simp [hs] at hok
      · by_cases he : inv.expiresAt < now
        · simp [hs, he] at hok
        · have hstore : (acceptInvitation store iid uid now).2 =
              updateFirst (fun i => i.id == iid) (acceptUpdate now uid) store := by
            unfold acceptInvitation
            rw [if_neg hg, hfind]
            simp [hs, he]
          have hpf : ((acceptUpdate now uid inv).id == iid) = true := by
            have hid := List.find?_some hfind
            simpa [acceptUpdate] using hid
          have hfind' := find?_updateFirst (fun i => i.id == iid) (acceptUpdate now uid)
            store inv hfind hpf
          rw [hstore]
          refine ⟨⟨acceptUpdate now uid inv, hfind', rfl, rfl, rfl⟩, ?_⟩
          intro uid' now' huid'
          have hg' : ¬(iid = "" ∨ uid' = "") := by
            rintro (h | h)
            · exact hg (Or.inl h)
            · exact huid' h
          unfold acceptInvitation
          rw [if_neg hg', hfind']
          simp [acceptUpdate]

/-- Witness for C3: a concrete pending invitation is accepted once, and
the second accept on the same id fails with the invalid-state error. -/
theorem acceptInvitation_at_most_once_witness :
    (∃ inv', ((acceptInvitation [wInv] "w1" "u7" 10).2).find? (fun i => i.id == "w1") = some inv' ∧
      inv'.status = "accepted" ∧ inv'.acceptedAt = some 10 ∧ inv'.acceptedBy = some "u7") ∧
    ∀ (uid' : String) (now' : Int), uid' ≠ "" →
      (acceptInvitation ((acceptInvitation [wInv] "w1" "u7" 10).2) "w1" uid' now').1 =
        .error (mkErr "Failed to accept invitation: Invitation has already been used") :=
  acceptInvitation_at_most_once [wInv] "w1" "u7" 10 rfl

/-- Claim C2: after a successful `resendInvitation` of a pending
invitation, the record holds the newly generated token; verification with
the pre-resend token fails, and verification with the new token succeeds
while the invitation is unexpired. The store is assumed to satisfy the
documented invariant of at most one pending invitation per email. -/
theorem resendInvitation_rotates_token (env : Env) (store : Store) (a : AuthInfo)
    (iid newToken : String) (nowR nowV : Int) (inv : Invitation)
    (hadmin : isAdminCheck env.users a = true)
    (hfind : store.find? (fun i => i.id == iid) = some inv)
    (hpend : inv.status = "pending")
    (hmail : env.sendMail inv.email = .ok ())
    (huniq : store.countP (fun i => i.email == inv.email && i.status == "pending") ≤ 1)
    (htokdiff : newToken ≠ inv.token) (htokne : newToken ≠ "") (hemne : inv.email ≠ "") :
    (resendInvitation env store (some a) iid newToken nowR).1 = .ok () ∧
    isValid (verifyInvitation (resendInvitation env store (some a) iid newToken nowR).2
      inv.token inv.email nowV).1 = false ∧
    (¬(nowR + sevenDaysSeconds < nowV) →
      isValid (verifyInvitation (resendInvitation env store (some a) iid newToken nowR).2
        newToken inv.email nowV).1 = true) := by
  have hres : resendInvitation env store (some a) iid newToken nowR =
      (.ok (), updateFirst (fun i => i.id == iid) (resendUpdate newToken nowR) store) := by
    unfold resendInvitation
    simp [hadmin, hfind, hpend, hmail]
  obtain ⟨l1, l2, heq, hl1, hupd⟩ :=
    find?_decomp (fun i => i.id == iid) (resendUpdate newToken nowR) store inv hfind
  have hside : ∀ x, x ∈ l1 ∨ x ∈ l2 → ∀ tok, ¬ matchesVerify inv.email tok x = true := by
    intro x hx tok hm
    have hprops := (matchesVerify_eq_true_iff inv.email tok x).mp hm
    have hqx : (fun i => i.email == inv.email && i.status == "pending") x = true := by
      simp [hprops.1, hprops.2.2]
    have hqinv : (fun i => i.email == inv.email && i.status == "pending") inv = true := by
      simp [hpend]
    exact countP_ge_two _ l1 l2 inv x hqinv hx hqx (heq ▸ huniq)
  have hupdtok : (resendUpdate newToken nowR inv).token = newToken := rfl
  refine ⟨by rw [hres], ?_, ?_⟩
  · rw [hres]
    by_cases htok0 : inv.token = ""
    · unfold verifyInvitation
      rw [if_pos (Or.inl htok0)]
      rfl
    · have hguard : ¬(inv.token = "" ∨ inv.email = "") := by
        rintro (h | h)
        · exact htok0 h
        · exact hemne h
      have hnone : (updateFirst (fun i => i.id == iid) (resendUpdate newToken nowR)
          store).find? (matchesVerify inv.email inv.token) = none := by
        rw [hupd]
        apply List.find?_eq_none.mpr
        intro x hx
        rcases List.mem_append.mp hx with hx1 | hx2
        · exact hside x (Or.inl hx1) inv.token
        · rcases List.mem_cons.mp hx2 with rfl | hx2'
          · intro hm
            have hprops := (matchesVerify_eq_true_iff inv.email inv.token _).mp hm
            exact htokdiff (by rw [← hupdtok]; exact hprops.2.1)
          · exact hside x (Or.inr hx2') inv.token
      unfold verifyInvitation
      rw [if_neg hguard, hnone]
      rfl
  · intro hnexp
    rw [hres]
    have hguard : ¬(newToken = "" ∨ inv.email = "") := by
      rintro (h | h)
      · exact htokne h
      · exact hemne h
    have hm : matchesVerify inv.email newToken (resendUpdate newToken nowR inv) = true := by
      simp [matchesVerify, resendUpdate, hpend]
    have hl1none : l1.find? (matchesVerify inv.email newToken) = none :=
      List.find?_eq_none.mpr (fun x hx => hside x (Or.inl hx) newToken)
    have hfindnew : (updateFirst (fun i => i.id == iid) (resendUpdate newToken nowR)
        store).find? (matchesVerify inv.email newToken) =
          some (resendUpdate newToken nowR inv) := by
      rw [hupd, List.find?_append, hl1none, Option.none_or]
      exact List.find?_cons_of_pos l2 hm
    have hnewexp : (resendUpdate newToken nowR inv).expiresAt = nowR + sevenDaysSeconds := rfl
    unfold verifyInvitation
    rw [if_neg hguard, hfindnew]
    simp [isValid, hnewexp, hnexp]

/-- Witness for C2: a concrete resend rotates the token `t` to `t2`; the
old token no longer verifies and the new one does. -/
theorem resendInvitation_rotates_token_witness :
    (resendInvitation wEnv [wInv] (some wAdmin) "w1" "t2" 10).1 = .ok () ∧
    isValid (verifyInvitation (resendInvitation wEnv [wInv] (some wAdmin) "w1" "t2" 10).2
      "t" "a" 20).1 = false ∧
    (¬((10 : Int) + sevenDaysSeconds < 20) →
      isValid (verifyInvitation (resendInvitation wEnv [wInv] (some wAdmin) "w1" "t2" 10).2
        "t2" "a" 20).1 = true) :=
  resendInvitation_rotates_token wEnv [wInv] wAdmin "w1" "t2" 10 20 wInv
    (by decide) (by decide) rfl rfl (by decide) (by decide) (by decide) (by decide)

/-- Claim C4: every invitation record persisted by `sendInvitations`
lacks a `role` field, and a successful `verifyInvitation` over records
without a `role` field returns the role `supporter`. -/
theorem sendInvitations_role_defaults_supporter (env : Env) (store : Store)
    (auth : Option AuthInfo) (emails : List String) (invitedBy : Option String) (now : Int) :
    (∀ inv ∈ (sendInvitations env store auth emails invitedBy now).2,
      inv ∈ store ∨ inv.role = none) ∧
    (∀ (s : Store) (token email : String) (n : Int),
      (∀ inv ∈ s, inv.role = none) → isValid (verifyInvitation s token email n).1 = true →
      ∃ i e, (verifyInvitation s token email n).1 = .valid i e "supporter") := by
  constructor
  · cases auth with
    | none => intro inv h; left; simpa [sendInvitations] using h
    | some a =>
      by_cases hadmin : isAdminCheck env.users a = true
      · by_cases hne : emails = []
        · intro inv h
          left
          subst hne
          simpa [sendInvitations, hadmin] using h
        · have hrun := sendInvitations_run env store a emails invitedBy now hadmin hne
          obtain ⟨news, hst, hshape⟩ :=
            sendFold_store env invitedBy a.token.email now emails (store, ⟨[], []⟩, 0)
          intro inv h
          rw [hrun] at h
          rcases List.mem_append.mp (hst ▸ h) with h' | h'
          · left; exact h'
          · right
            obtain ⟨k, em, hinv, _⟩ := hshape inv h'
            rw [hinv]
            rfl
      · intro inv h
        left
        have hadmin' : isAdminCheck env.users a = false := by simpa using hadmin
        simpa [sendInvitations, hadmin'] using h
  · intro s token email n hall hvalid
    unfold verifyInvitation at hvalid ⊢
    by_cases hg : token = "" ∨ email = ""
    · rw [if_pos hg] at hvalid
      simp [isValid] at hvalid
    · rw [if_neg hg] at hvalid ⊢
      cases hfind : s.find? (matchesVerify email token) with
      | none => rw [hfind] at hvalid; simp [isValid] at hvalid
      | some inv =>
        rw [hfind] at hvalid
        by_cases hexp : inv.expiresAt < n
        · simp [hexp, isValid] at hvalid
        · refine ⟨inv.id, inv.email, ?_⟩
          have hrole := hall inv (List.mem_of_find?_eq_some hfind)
          simp [hexp, hrole]

/-- Witness for C4: one batch-created record has no role, and a concrete
successful verification over a role-less record returns `supporter`. -/
theorem sendInvitations_role_defaults_supporter_witness :
    (∀ inv ∈ (sendInvitations wEnv [] (some wAdmin) ["a"] none 0).2,
      inv ∈ ([] : Store) ∨ inv.role = none) ∧
    (∃ i e, (verifyInvitation [wInv] "t" "a" 10).1 = .valid i e "supporter") :=
  ⟨(sendInvitations_role_defaults_supporter wEnv [] (some wAdmin) ["a"] none 0).1,
   (sendInvitations_role_defaults_supporter wEnv [] (some wAdmin) ["a"] none 0).2
     [wInv] "t" "a" 10 (by decide) (by decide)⟩

/-- Claim C5: for a non-empty email list under an admin caller,
`sendInvitations` processes each email independently: every occurrence of
an input email lands in exactly one of the `success` or `failed` lists
(the batch never aborts); an email with an existing account always fails
with `User already exists`; an email with an existing pending invitation
always fails with `Invitation already sent`; and a fresh email gets a
pending record persisted. -/
theorem sendInvitations_batch_partition (env : Env) (store : Store) (a : AuthInfo)
    (emails : List String) (invitedBy : Option String) (now : Int)
    (hadmin : isAdminCheck env.users a = true) (hne : emails ≠ []) :
    ∃ res, (sendInvitations env store (some a) emails invitedBy now).1 = .ok res ∧
      (∀ e, res.success.count e + (res.failed.map Prod.fst).count e = emails.count e) ∧
      (∀ e, userExistsByEmail env.users e = true →
        res.success.count e = 0 ∧
          res.failed.count (e, "User already exists") = emails.count e) ∧
      (∀ e, userExistsByEmail env.users e = false → hasPendingInvitation store e = true →
        res.success.count e = 0 ∧
          res.failed.count (e, "Invitation already sent") = emails.count e) ∧
      (∀ e, userExistsByEmail env.users e = false → hasPendingInvitation store e = false →
        emails.count e = 1 →
        ∃ inv ∈ (sendInvitations env store (some a) emails invitedBy now).2,
          inv.email = e ∧ inv.status = "pending") := by
  have hrun := sendInvitations_run env store a emails invitedBy now hadmin hne
  refine ⟨(emails.foldl (processEmail env invitedBy a.token.email now)
    (store, ⟨[], []⟩, 0)).2.1, by rw [hrun], ?_, ?_, ?_, ?_⟩
  · intro e
    have h := sendFold_count env invitedBy a.token.email now emails (store, ⟨[], []⟩, 0) e
    simpa using h
  · intro e hu
    have h := sendFold_user env invitedBy a.token.email now e hu emails (store, ⟨[], []⟩, 0)
    simpa using h
  · intro e hu hp
    have h := sendFold_pending env invitedBy a.token.email now e hu emails
      (store, ⟨[], []⟩, 0) hp
    simpa using h
  · intro e hu hp h1
    have h := (sendFold_fresh env invitedBy a.token.email now e hu emails
      (store, ⟨[], []⟩, 0) hp h1).1
    rw [hrun]
    exact h

/-- Witness for C5 at a concrete one-element batch. -/
theorem sendInvitations_batch_partition_witness :
    ∃ res, (sendInvitations wEnv [] (some wAdmin) ["a"] none 0).1 = .ok res ∧
      (∀ e, res.success.count e + (res.failed.map Prod.fst).count e = ["a"].count e) ∧
      (∀ e, userExistsByEmail wEnv.users e = true →
        res.success.count e = 0 ∧
          res.failed.count (e, "User already exists") = ["a"].count e) ∧
      (∀ e, userExistsByEmail wEnv.users e = false →
        hasPendingInvitation [] e = true →
        res.success.count e = 0 ∧
          res.failed.count (e, "Invitation already sent") = ["a"].count e) ∧
      (∀ e, userExistsByEmail wEnv.users e = false →
        hasPendingInvitation [] e = false → (["a"] : List String).count e = 1 →
        ∃ inv ∈ (sendInvitations wEnv [] (some wAdmin) ["a"] none 0).2,
          inv.email = e ∧ inv.status = "pending") :=
  sendInvitations_batch_partition wEnv [] wAdmin ["a"] none 0 (by decide) (by decide)

/-- Claim C6: every invitation created by `sendInvitations` has
`expiresAt = createdAt` plus seven days, and a resend rewrites the found
record with `expiresAt` equal to the resend time plus seven days,
strictly later than the original expiry when the resend happens after
creation. -/
theorem invitation_expiry_seven_days
    (envC : Env) (storeC : Store) (authC : Option AuthInfo) (emailsC : List String)
    (invitedByC : Option String) (nowC : Int)
    (envR : Env) (storeR : Store) (aR : AuthInfo) (iid tokR : String) (nowR : Int)
    (invR : Invitation)
    (hadminR : isAdminCheck envR.users aR = true)
    (hfindR : storeR.find? (fun i => i.id == iid) = some invR)
    (hpendR : invR.status = "pending") :
    (∀ inv ∈ (sendInvitations envC storeC authC emailsC invitedByC nowC).2,
      inv ∈ storeC ∨
        (inv.createdAt = nowC ∧ inv.expiresAt = inv.createdAt + sevenDaysSeconds)) ∧
    ((resendInvitation envR storeR (some aR) iid tokR nowR).2.find?
        (fun i => i.id == iid) = some (resendUpdate tokR nowR invR) ∧
      (resendUpdate tokR nowR invR).expiresAt = nowR + sevenDaysSeconds ∧
      (invR.expiresAt = invR.createdAt + sevenDaysSeconds → invR.createdAt < nowR →
        invR.expiresAt < (resendUpdate tokR nowR invR).expiresAt)) := by
  constructor
  · cases authC with
    | none => intro inv h; left; simpa [sendInvitations] using h
    | some a =>
      by_cases hadmin : isAdminCheck envC.users a = true
      · by_cases hne : emailsC = []
        · intro inv h
          left
          subst hne
          simpa [sendInvitations, hadmin] using h
        · have hrun := sendInvitations_run envC storeC a emailsC invitedByC nowC hadmin hne
          obtain ⟨news, hst, hshape⟩ :=
            sendFold_store envC invitedByC a.token.email nowC emailsC (storeC, ⟨[], []⟩, 0)
          intro inv h
          rw [hrun] at h
          rcases List.mem_append.mp (hst ▸ h) with h' | h'
          · left; exact h'
          · right
            obtain ⟨k, em, hinv, _⟩ := hshape inv h'
            rw [hinv]
            exact ⟨rfl, rfl⟩
      · intro inv h
        left
        have hadmin' : isAdminCheck envC.users a = false := by simpa using hadmin
        simpa [sendInvitations, hadmin'] using h
  · have hstore2 : (resendInvitation envR storeR (some aR) iid tokR nowR).2 =
        updateFirst (fun i => i.id == iid) (resendUpdate tokR nowR) storeR := by
      unfold resendInvitation
      cases hm : envR.sendMail invR.email with
      | ok u => simp [hadminR, hfindR, hpendR, hm]
      | error m => simp [hadminR, hfindR, hpendR, hm]
    have hpf : ((resendUpdate tokR nowR invR).id == iid) = true := by
      have hid := List.find?_some hfindR
      simpa [resendUpdate] using hid
    refine ⟨?_, rfl, ?_⟩
    · rw [hstore2]
      exact find?_updateFirst _ _ storeR invR hfindR hpf
    · intro hexpc hlt
      rw [hexpc]
      show invR.createdAt + sevenDaysSeconds < nowR + sevenDaysSeconds
      omega

/-- Witness for C6: a concrete batch-created record satisfies the
seven-day equation, and a concrete resend at time 10 strictly extends an
expiry originally set at creation time 0. -/
theorem invitation_expiry_seven_days_witness :
    (∀ inv ∈ (sendInvitations wEnv [] (some wAdmin) ["a"] none 0).2,
      inv ∈ ([] : Store) ∨
        (inv.createdAt = 0 ∧ inv.expiresAt = inv.createdAt + sevenDaysSeconds)) ∧
    wInv7.expiresAt < (resendUpdate "t2" 10 wInv7).expiresAt :=
  ⟨(invitation_expiry_seven_days wEnv [] (some wAdmin) ["a"] none 0
      wEnv [wInv7] wAdmin "w7" "t2" 10 wInv7 (by decide) (by decide) rfl).1,
   (invitation_expiry_seven_days wEnv [] (some wAdmin) ["a"] none 0
      wEnv [wInv7] wAdmin "w7" "t2" 10 wInv7 (by decide) (by decide) rfl).2.2.2
     (by decide) (by decide)⟩

/-- Claim C8: when mail dispatch fails for a fresh email during
`sendInvitations`, that email is reported in the `failed` list with the
dispatch error's reason, and the invitation record persisted before the
dispatch remains in the store. -/
theorem sendInvitations_dispatch_failure_reported (env : Env) (store : Store) (a : AuthInfo)
    (emails : List String) (invitedBy : Option String) (now : Int) (e m : String)
    (hadmin : isAdminCheck env.users a = true) (hne : emails ≠ [])
    (hu : userExistsByEmail env.users e = false)
    (hp : hasPendingInvitation store e = false)
    (h1 : emails.count e = 1)
    (hmail : env.sendMail e = .error m) :
    ∃ res, (sendInvitations env store (some a) emails invitedBy now).1 = .ok res ∧
      (e, failReason m) ∈ res.failed ∧
      ∃ inv ∈ (sendInvitations env store (some a) emails invitedBy now).2,
        inv.email = e ∧ inv.status = "pending" := by
  have hrun := sendInvitations_run env store a emails invitedBy now hadmin hne
  obtain ⟨hmem, _, herr⟩ := sendFold_fresh env invitedBy a.token.email now e hu emails
    (store, ⟨[], []⟩, 0) hp h1
  refine ⟨(emails.foldl (processEmail env invitedBy a.token.email now)
    (store, ⟨[], []⟩, 0)).2.1, by rw [hrun], ?_, ?_⟩
  · apply List.count_pos_iff.mp
    have hcnt := herr m hmail
    rw [hcnt]
    simp
  · rw [hrun]
    exact hmem

/-- Witness for C8: with a transporter that always fails with `boom`, the
email lands in `failed` with reason `boom` and its record persists. -/
theorem sendInvitations_dispatch_failure_reported_witness :
    ∃ res, (sendInvitations wEnvFail [] (some wAdmin) ["a"] none 0).1 = .ok res ∧
      ("a", failReason "boom") ∈ res.failed ∧
      ∃ inv ∈ (sendInvitations wEnvFail [] (some wAdmin) ["a"] none 0).2,
        inv.email = "a" ∧ inv.status = "pending" :=
  sendInvitations_dispatch_failure_reported wEnvFail [] wAdmin ["a"] none 0 "a" "boom"
    (by decide) (by decide) (by decide) (by decide) (by decide) rfl

/-- Claim C10: the pending-invitation check of `sendInvitations` ignores
`expiresAt`: an email whose stored invitation is pending but already
expired still fails with `Invitation already sent`, at every call time. -/
theorem sendInvitations_expired_pending_blocks (env : Env) (store : Store) (a : AuthInfo)
    (emails : List String) (invitedBy : Option String) (now : Int) (e : String)
    (inv : Invitation)
    (hadmin : isAdminCheck env.users a = true) (hne : emails ≠ [])
    (hu : userExistsByEmail env.users e = false)
    (hmem : inv ∈ store) (hem : inv.email = e) (hpendi : inv.status = "pending")
    (hexp : inv.expiresAt < now)
    (hin : e ∈ emails) :
    ∃ res, (sendInvitations env store (some a) emails invitedBy now).1 = .ok res ∧
      (e, "Invitation already sent") ∈ res.failed ∧ res.success.count e = 0 := by
  have hpend : hasPendingInvitation store e = true := by
    unfold hasPendingInvitation
    exact List.any_eq_true.mpr ⟨inv, hmem, by simp [hem, hpendi]⟩
  have hrun := sendInvitations_run env store a emails invitedBy now hadmin hne
  obtain ⟨hs, hf⟩ := sendFold_pending env invitedBy a.token.email now e hu emails
    (store, ⟨[], []⟩, 0) hpend
  refine ⟨(emails.foldl (processEmail env invitedBy a.token.email now)
    (store, ⟨[], []⟩, 0)).2.1, by rw [hrun], ?_, ?_⟩
  · apply List.count_pos_iff.mp
    rw [hf]
    have hpos : 0 < emails.count e := List.count_pos_iff.mpr hin
    simpa using hpos
  · simpa using hs

/-- Witness for C10: an expired pending invitation for `a` (expiry 5,
call time 10) still blocks re-inviting `a`. -/
theorem sendInvitations_expired_pending_blocks_witness :
    ∃ res, (sendInvitations wEnv [cexExpired] (some wAdmin) ["a"] none 10).1 = .ok res ∧
      ("a", "Invitation already sent") ∈ res.failed ∧ res.success.count "a" = 0 :=
  sendInvitations_expired_pending_blocks wEnv [cexExpired] wAdmin ["a"] none 10 "a"
    cexExpired (by decide) (by decide) (by decide) (by decide) (by decide) (by decide)
    (by decide) (by decide)

/-- Claim C9, as stated, is false on the code: every failure is thrown as
the single JavaScript class `Error`, so an authorization failure and a
not-found failure carry the same error class and are not distinguishable
by class; they differ only in message. -/
theorem admin_error_single_cls_counterexample :
    (resendInvitation wEnv [] (some wNonAdmin) "i1" "t" 0).1 =
      .error ⟨"Error",
        "Failed to resend invitation: Unauthorized: Only admins can resend invitations"⟩ ∧
    (resendInvitation wEnv [] (some wAdmin) "i1" "t" 0).1 =
      .error ⟨"Error", "Failed to resend invitation: Invitation not found"⟩ ∧
    (mkErr "Failed to resend invitation: Unauthorized: Only admins can resend invitations").cls =
      (mkErr "Failed to resend invitation: Invitation not found").cls :=
  ⟨rfl, rfl, rfl⟩

/-- Claim C9 (amended): all failures share the one error class `Error`;
authorization failures of the four admin operations carry fixed messages
(unauthenticated ones unprefixed, non-admin ones wrapped by the
operation's `Failed to ...` prefix), and these messages are distinct from
the not-found and invalid-state messages, so a caller can tell an
authorization failure apart by message, not by class. -/
theorem admin_auth_errors_distinguishable_by_message (env : Env) (store : Store)
    (a aAdm : AuthInfo) (iid freshTok : String) (now : Int) (emails : List String)
    (invitedBy : Option String)
    (hnadm : isAdminCheck env.users a = false)
    (hadm : isAdminCheck env.users aAdm = true) :
    (sendInvitations env store none emails invitedBy now).1 =
      .error (mkErr "Unauthorized: You must be logged in to send invitations") ∧
    (resendInvitation env store none iid freshTok now).1 =
      .error (mkErr "Unauthorized: You must be logged in to resend invitations") ∧
    (deleteInvitation env store none iid).1 =
      .error (mkErr "Unauthorized: You must be logged in to delete invitations") ∧
    (getInvitations env store none).1 =
      .error (mkErr "Unauthorized: You must be logged in to view invitations") ∧
    (sendInvitations env store (some a) emails invitedBy now).1 =
      .error (mkErr "Failed to send invitations: Unauthorized: Only admins can send invitations") ∧
    (resendInvitation env store (some a) iid freshTok now).1 =
      .error (mkErr "Failed to resend invitation: Unauthorized: Only admins can resend invitations") ∧
    (deleteInvitation env store (some a) iid).1 =
      .error (mkErr "Failed to delete invitation: Unauthorized: Only admins can delete invitations") ∧
    (getInvitations env store (some a)).1 =
      .error (mkErr "Failed to get invitations: Unauthorized: Only admins can view invitations") ∧
    (store.find? (fun i => i.id == iid) = none →
      (resendInvitation env store (some aAdm) iid freshTok now).1 =
        .error (mkErr "Failed to resend invitation: Invitation not found")) ∧
    (∀ inv, store.find? (fun i => i.id == iid) = some inv → inv.status ≠ "pending" →
      (resendInvitation env store (some aAdm) iid freshTok now).1 =
        .error (mkErr
          "Failed to resend invitation: Cannot resend an invitation that has already been accepted")) ∧
    ("Failed to resend invitation: Unauthorized: Only admins can resend invitations" ≠
        "Failed to resend invitation: Invitation not found" ∧
      "Failed to resend invitation: Unauthorized: Only admins can resend invitations" ≠
        "Failed to resend invitation: Cannot resend an invitation that has already been accepted" ∧
      "Unauthorized: You must be logged in to resend invitations" ≠
        "Failed to resend invitation: Invitation not found" ∧
      "Unauthorized: You must be logged in to resend invitations" ≠
        "Failed to resend invitation: Cannot resend an invitation that has already been accepted") := by
  refine ⟨rfl, rfl, rfl, rfl, ?_, ?_, ?_, ?_, ?_, ?_, by decide⟩
  · unfold sendInvitations; simp [hnadm]
  · unfold resendInvitation; simp [hnadm]
  · unfold deleteInvitation; simp [hnadm]
  · unfold getInvitations; simp [hnadm]
  · intro hnone
    unfold resendInvitation
    simp [hadm, hnone]
  · intro inv hfind hnp
    unfold resendInvitation
    simp [hadm, hfind, hnp]

/-- Witness for the amended C9: a concrete non-admin resend and a
concrete admin resend of a missing id produce the documented messages. -/
theorem admin_auth_errors_distinguishable_by_message_witness :
    (resendInvitation wEnv [] (some wNonAdmin) "i9" "t" 0).1 =
      .error (mkErr
        "Failed to resend invitation: Unauthorized: Only admins can resend invitations") ∧
    (resendInvitation wEnv [] (some wAdmin) "i9" "t" 0).1 =
      .error (mkErr "Failed to resend invitation: Invitation not found") :=
  ⟨(admin_auth_errors_distinguishable_by_message wEnv [] wNonAdmin wAdmin "i9" "t" 0
      [] none rfl rfl).2.2.2.2.2.1,
   (admin_auth_errors_distinguishable_by_message wEnv [] wNonAdmin wAdmin "i9" "t" 0
      [] none rfl rfl).2.2.2.2.2.2.2.2.1 rfl⟩

end DigbyDolphins
